import Mathlib

/-!
Shallow embedding of the KnowledgeHub VS Code extension core: the AI
provider detector (`ai-provider-detector.ts`), the live context buffer
(`live-context.ts`), the AI enhancement layer (`ai-enhancement-layer.ts`)
and the activation helper, together with theorems settling the
specification's claims about them.

JavaScript strings are modelled as Lean `String`s; `toLowerCase` is
modelled character-wise, `includes` as contiguous-substring search, and
`Array.prototype.sort` with a comparator as a merge sort under the
comparator's order. Host-environment lookups (installed extensions, the
active editor, timers, promise settlement order) are passed as explicit
arguments.
-/

namespace KHub

/-! ## String primitives -/

/-- Character-wise lower-casing of a string, modelling JS `toLowerCase`
on the ASCII range. -/
def lowerList (s : String) : List Char := s.toList.map Char.toLower

/-- Does `p` occur at the head of `s`? -/
def listStartsWith : List Char → List Char → Bool
  | _, [] => true
  | [], _ :: _ => false
  | c :: s, d :: p => c == d && listStartsWith s p

/-- Does `p` occur as a contiguous substring of `s`? Models JS
`String.prototype.includes`. -/
def listHasSub : List Char → List Char → Bool
  | [], p => listStartsWith [] p
  | c :: t, p => listStartsWith (c :: t) p || listHasSub t p

/-- JS `Array.prototype.join(sep)` over a list of strings. -/
def joinSep (sep : String) : List String → String
  | [] => ""
  | [x] => x
  | x :: y :: xs => x ++ sep ++ joinSep sep (y :: xs)

/-- Case-sensitive lexicographic order on character lists; used (after
lower-casing) to model the `localeCompare` comparator's order. -/
def charListLe : List Char → List Char → Bool
  | [], _ => true
  | _ :: _, [] => false
  | c :: s, d :: t => Nat.blt c.toNat d.toNat || (c == d && charListLe s t)

/-- The string `sub` occurs contiguously inside `s`. -/
def Contains (s sub : String) : Prop :=
  ∃ pre post : List Char, s.data = pre ++ sub.data ++ post

/-- JS `x || dflt` for an optional string field: absent or empty (falsy)
values are replaced by the default. -/
def orDefault (s : Option String) (dflt : String) : String :=
  match s with
  | none => dflt
  | some v => if v = "" then dflt else v

/-! ## Extension metadata model (`vscode.Extension` / `packageJSON`) -/

/-- One entry of `packageJSON.contributes.commands`. -/
structure CommandContribution where
  command : Option String
  title : Option String
  deriving DecidableEq

/-- The `packageJSON.contributes` object; the three non-command fields
record whether the corresponding contribution key is present and truthy. -/
structure Contributes where
  commands : Option (List CommandContribution)
  completionProviders : Bool
  inlineCompletionProviders : Bool
  languages : Bool
  deriving DecidableEq

/-- The empty object `{}` substituted when `packageJSON.contributes` is
absent. -/
def emptyContributes : Contributes :=
  { commands := none, completionProviders := false,
    inlineCompletionProviders := false, languages := false }

/-- The fields of `packageJSON` read by the detector. -/
structure PackageJSON where
  description : Option String
  displayName : Option String
  keywords : Option (List String)
  categories : Option (List String)
  contributes : Option Contributes
  version : Option String
  deriving DecidableEq

/-- An installed extension as seen through `vscode.extensions.all`. -/
structure Extension where
  id : String
  isActive : Bool
  packageJSON : PackageJSON
  deriving DecidableEq

/-! ## AI provider detector (`ai-provider-detector.ts`) -/

/-- `AIProviderInfo`: one allow-list table entry. -/
structure AIProviderInfo where
  name : String
  displayName : String
  capabilities : List String
  apiMethods : List String
  deriving DecidableEq

/-- `DetectedAIProvider`: a provider descriptor emitted by one
detection pass. -/
structure DetectedAIProvider where
  id : String
  name : String
  displayName : String
  extension : Extension
  isActive : Bool
  version : String
  capabilities : List String
  deriving DecidableEq

/-- The static allow-list built by `initializeKnownProviders`, in
insertion order (JS `Map` iterates in insertion order). -/
def knownProvidersList : List (String × AIProviderInfo) :=
  [("github.copilot",
    ⟨"github.copilot", "GitHub Copilot",
     ["code-completion", "inline-completion", "chat"],
     ["getCompletions", "getInlineCompletions"]⟩),
   ("continue.continue",
    ⟨"continue.continue", "Continue (Cline)",
     ["chat", "code-generation", "context-aware"],
     ["registerContextProvider", "addContextProvider"]⟩),
   ("anthropic.claude-dev",
    ⟨"anthropic.claude-dev", "Claude Dev",
     ["chat", "code-generation", "file-operations"],
     ["addContextProvider", "registerProvider"]⟩),
   ("codeium.codeium",
    ⟨"codeium.codeium", "Codeium",
     ["code-completion", "inline-completion"],
     ["provideInlineCompletionItems"]⟩),
   ("tabnine.tabnine-vscode",
    ⟨"tabnine.tabnine-vscode", "TabNine",
     ["code-completion", "inline-completion"],
     ["provideCompletionItems"]⟩),
   ("visualstudioexptteam.vscodeintellicode",
    ⟨"visualstudioexptteam.vscodeintellicode", "Visual Studio IntelliCode",
     ["code-completion", "suggestions"],
     ["provideCompletionItems"]⟩),
   ("kiteco.kite",
    ⟨"kiteco.kite", "Kite",
     ["code-completion", "documentation"],
     ["provideCompletionItems"]⟩),
   ("amazonwebservices.aws-toolkit-vscode",
    ⟨"amazonwebservices.aws-toolkit-vscode", "AWS CodeWhisperer",
     ["code-completion", "inline-completion"],
     ["provideInlineCompletionItems"]⟩),
   ("jetbrains.ai-assistant",
    ⟨"jetbrains.ai-assistant", "JetBrains AI Assistant",
     ["chat", "code-generation"],
     ["registerProvider"]⟩),
   ("aider.aider-vscode",
    ⟨"aider.aider-vscode", "Aider",
     ["chat", "code-generation", "git-aware"],
     ["registerContextProvider"]⟩)]

/-- `knownProviders.has(id)`. -/
def knownProvidersHas (id : String) : Bool :=
  knownProvidersList.any (fun p => p.1 == id)

/-- The keyword vocabulary of `containsAIKeywords`. -/
def aiKeywords : List String :=
  ["ai", "artificial intelligence", "machine learning", "ml",
   "copilot", "assistant", "autocomplete", "completion",
   "smart", "intelligent", "suggestion", "predict",
   "claude", "gpt", "openai", "anthropic", "codeium",
   "tabnine", "kite", "intellicode", "codewhisperer"]

/-- `containsAIKeywords`: any vocabulary word occurs in the lower-cased
text. -/
def containsAIKeywords (text : String) : Bool :=
  aiKeywords.any (fun keyword => listHasSub (lowerList text) keyword.toList)

/-- The category vocabulary of `hasAICategory`. -/
def aiCategories : List String :=
  ["AI", "Machine Learning", "Artificial Intelligence",
   "Productivity", "Code Completion", "Assistant"]

/-- `hasAICategory`: some declared category contains some vocabulary
category (both lower-cased). -/
def hasAICategory (categories : List String) : Bool :=
  categories.any (fun category =>
    aiCategories.any (fun aiCat =>
      listHasSub (lowerList category) (lowerList aiCat)))

/-- The command-keyword vocabulary of `hasAICommands`. -/
def aiCommandKeywords : List String :=
  ["complete", "suggest", "ai", "assistant", "generate",
   "chat", "ask", "help", "smart", "auto"]

/-- `hasAICommands`: some declared command's id or title contains some
vocabulary word. -/
def hasAICommands (commands : List CommandContribution) : Bool :=
  commands.any (fun command =>
    aiCommandKeywords.any (fun keyword =>
      listHasSub (lowerList (command.command.getD "")) keyword.toList ||
      listHasSub (lowerList (command.title.getD "")) keyword.toList))

/-- `hasCompletionProviders`: truthiness of
`contributes.completionProviders || contributes.inlineCompletionProviders
|| contributes.languages`. -/
def hasCompletionProviders (contributes : Contributes) : Bool :=
  contributes.completionProviders || contributes.inlineCompletionProviders ||
    contributes.languages

/-- The six indicator booleans assembled inside `isLikelyAIProvider`, in
source order. -/
def codeIndicators (e : Extension) : List Bool :=
  [containsAIKeywords (e.packageJSON.description.getD ""),
   containsAIKeywords (e.packageJSON.displayName.getD ""),
   containsAIKeywords (joinSep " " (e.packageJSON.keywords.getD [])),
   hasAICategory (e.packageJSON.categories.getD []),
   hasAICommands ((e.packageJSON.contributes.bind (fun c => c.commands)).getD []),
   hasCompletionProviders (e.packageJSON.contributes.getD emptyContributes)]

/-- `isLikelyAIProvider`: at least 2 of the six indicator booleans hold
(`indicators.filter(Boolean).length >= 2`). -/
def isLikelyAIProvider (e : Extension) : Bool :=
  decide (2 ≤ ((codeIndicators e).filter (fun b => b)).length)

/-- Number of true indicators among the six computed by the code. -/
def codeIndicatorCount (e : Extension) : Nat :=
  ((codeIndicators e).filter (fun b => b)).length

/-- Modelled from the spec: the four heuristic indicators of section 4.1
(AI term in description, display name or keyword list; AI-adjacent
category; AI term in a declared command id or title; a completion or
inline-completion contribution point). This transcribes the spec's
grouping, to be compared with `codeIndicators` from the source. -/
def specIndicators (e : Extension) : List Bool :=
  [containsAIKeywords (e.packageJSON.description.getD "") ||
     containsAIKeywords (e.packageJSON.displayName.getD "") ||
     containsAIKeywords (joinSep " " (e.packageJSON.keywords.getD [])),
   hasAICategory (e.packageJSON.categories.getD []),
   hasAICommands ((e.packageJSON.contributes.bind (fun c => c.commands)).getD []),
   (e.packageJSON.contributes.getD emptyContributes).completionProviders ||
     (e.packageJSON.contributes.getD emptyContributes).inlineCompletionProviders]

/-- Number of true indicators among the spec's four. -/
def specIndicatorCount (e : Extension) : Nat :=
  ((specIndicators e).filter (fun b => b)).length

/-- `inferCapabilities` for a heuristically classified extension. -/
def inferCapabilities (e : Extension) : List String :=
  let contributes := e.packageJSON.contributes.getD emptyContributes
  let completionCaps : List String :=
    if contributes.completionProviders || contributes.inlineCompletionProviders
    then ["code-completion"] else []
  let chatCaps : List String :=
    match contributes.commands with
    | none => []
    | some commands =>
        if commands.any (fun cmd =>
            listHasSub (lowerList (cmd.title.getD "")) "chat".toList ||
            listHasSub (lowerList (cmd.command.getD "")) "chat".toList)
        then ["chat"] else []
  let capabilities := completionCaps ++ chatCaps
  if capabilities.length = 0 then ["unknown"] else capabilities

/-- The descriptor pushed by `detectUnknownAIProviders` for a
heuristically classified extension. -/
def mkUnknownDescriptor (e : Extension) : DetectedAIProvider :=
  { id := e.id, name := e.id,
    displayName := orDefault e.packageJSON.displayName e.id,
    extension := e, isActive := e.isActive,
    version := orDefault e.packageJSON.version "unknown",
    capabilities := inferCapabilities e }

/-- `detectUnknownAIProviders`: scan all extensions, skip allow-listed
ids, keep those classified by the heuristic. -/
def detectUnknownAIProviders (extensions : List Extension) :
    List DetectedAIProvider :=
  extensions.filterMap (fun e =>
    if knownProvidersHas e.id then none
    else if isLikelyAIProvider e then some (mkUnknownDescriptor e)
    else none)

/-- The descriptor pushed by the allow-list pass of `detectProviders`. -/
def mkKnownDescriptor (eid : String) (info : AIProviderInfo)
    (ext : Extension) : DetectedAIProvider :=
  { id := eid, name := info.name, displayName := info.displayName,
    extension := ext, isActive := ext.isActive,
    version := orDefault ext.packageJSON.version "unknown",
    capabilities := info.capabilities }

/-- The sort comparator's order:
`a.displayName.localeCompare(b.displayName)`, modelled as
case-insensitive lexicographic comparison. -/
def displayNameLe (a b : DetectedAIProvider) : Bool :=
  charListLe (lowerList a.displayName) (lowerList b.displayName)

/-- The allow-list pass of `detectProviders`: for each known-provider
table entry in insertion order, find the first installed extension with
that id and emit its descriptor. -/
def detectKnownProviders (allExtensions : List Extension) :
    List DetectedAIProvider :=
  knownProvidersList.filterMap (fun p =>
    (allExtensions.find? (fun ext => ext.id == p.1)).map
      (mkKnownDescriptor p.1 p.2))

/-- `detectProviders`: allow-list pass over the known-provider table,
then the heuristic pass, then sort by display name. JS `Array.sort` with
a consistent comparator is modelled as a stable sort under the
comparator's order. -/
def detectProviders (allExtensions : List Extension) :
    List DetectedAIProvider :=
  List.insertionSort (fun a b => displayNameLe a b = true)
    (detectKnownProviders allExtensions ++
      detectUnknownAIProviders allExtensions)

/-- `waitForProviderActivation`'s race, determinized: which of the
activation promise's settlement and the timeout fires first. -/
inductive ActivationOutcome where
  | activationResolves
  | activationRejects
  | timeoutElapses
  deriving DecidableEq

/-- `waitForProviderActivation(providerId, timeout)`: `extension` is the
result of the `getExtension(providerId)` lookup; `outcome` says which of
the timer and the activation promise settles first (the loser's later
settlement is discarded by the promise's resolve-once semantics). -/
def waitForProviderActivation (extension : Option Extension)
    (outcome : ActivationOutcome) : Bool :=
  match extension with
  | none => false
  | some e =>
    if e.isActive then true
    else
      match outcome with
      | ActivationOutcome.activationResolves => true
      | ActivationOutcome.activationRejects => false
      | ActivationOutcome.timeoutElapses => false

/-! ## Live context buffer (`live-context.ts`) -/

/-- One entry of `event.contentChanges`. -/
structure TextChange where
  rangeStart : Nat
  rangeEnd : Nat
  text : String
  deriving DecidableEq

/-- `DocumentChange`. -/
structure DocumentChange where
  file : String
  changes : List TextChange
  timestamp : Nat
  language : String
  deriving DecidableEq

/-- One entry of the `saves` list. -/
structure SaveEvent where
  file : String
  timestamp : Nat
  deriving DecidableEq

/-- One entry of the `selections` list. -/
structure SelectionRecord where
  file : String
  selection : Option (Nat × Nat)
  timestamp : Nat
  deriving DecidableEq

/-- `ContextBuffer` state. -/
structure ContextBuffer where
  changes : List DocumentChange
  saves : List SaveEvent
  selections : List SelectionRecord
  currentFile : String
  maxBufferSize : Nat
  deriving DecidableEq

/-- A freshly constructed `ContextBuffer`. -/
def initialContextBuffer : ContextBuffer :=
  { changes := [], saves := [], selections := [], currentFile := "",
    maxBufferSize := 100 }

/-- `ContextBuffer.addChange`: push, then truncate to the most recent
`maxBufferSize` entries (`slice(-maxBufferSize)`). -/
def addChange (b : ContextBuffer) (change : DocumentChange) : ContextBuffer :=
  let cs := b.changes ++ [change]
  if b.maxBufferSize < cs.length
  then { b with changes := cs.drop (cs.length - b.maxBufferSize) }
  else { b with changes := cs }

/-- `ContextBuffer.addSaveEvent`: push `{file, timestamp}`, capacity 50. -/
def addSaveEvent (b : ContextBuffer) (file : String) (now : Nat) :
    ContextBuffer :=
  let ss := b.saves ++ [{ file := file, timestamp := now }]
  if 50 < ss.length
  then { b with saves := ss.drop (ss.length - 50) }
  else { b with saves := ss }

/-- `ContextBuffer.addSelectionChange`: push, capacity 20. -/
def addSelectionChange (b : ContextBuffer) (r : SelectionRecord) :
    ContextBuffer :=
  let sl := b.selections ++ [r]
  if 20 < sl.length
  then { b with selections := sl.drop (sl.length - 20) }
  else { b with selections := sl }

/-- `ContextBuffer.setCurrentFile`. -/
def setCurrentFile (b : ContextBuffer) (file : String) : ContextBuffer :=
  { b with currentFile := file }

/-- `ContextBuffer.getRecentChanges(minutes)`: filter the changes list by
`timestamp > now - minutes*60*1000`; returned with the post-call buffer
state (the method only reads, via `Array.prototype.filter`). -/
def getRecentChanges (b : ContextBuffer) (now minutes : Nat) :
    List DocumentChange × ContextBuffer :=
  (b.changes.filter (fun change =>
    Nat.blt (now - minutes * 60 * 1000) change.timestamp), b)

/-- One ingest operation on the buffer. -/
inductive BufferOp where
  | change (c : DocumentChange)
  | save (file : String) (now : Nat)
  | selection (r : SelectionRecord)
  | setFile (f : String)

/-- Apply one ingest operation. -/
def applyOp (b : ContextBuffer) : BufferOp → ContextBuffer
  | BufferOp.change c => addChange b c
  | BufferOp.save f now => addSaveEvent b f now
  | BufferOp.selection r => addSelectionChange b r
  | BufferOp.setFile f => setCurrentFile b f

/-- Run a sequence of ingest operations on a fresh buffer. -/
def runOps (ops : List BufferOp) : ContextBuffer :=
  ops.foldl applyOp initialContextBuffer

/-! ## Live context stream (`LiveContextStream`) -/

/-- `LiveContextStream` state: the activity flag, whether the four host
listeners are subscribed, whether the periodic timer is set, and the
owned buffer. -/
structure LiveContextStream where
  isActive : Bool
  subscribed : Bool
  timerActive : Bool
  buffer : ContextBuffer
  deriving DecidableEq

/-- `startContextTracking`: no-op when already active, otherwise set the
flag, subscribe the listeners and start the timer. -/
def startContextTracking (s : LiveContextStream) : LiveContextStream :=
  if s.isActive then s
  else { s with isActive := true, subscribed := true, timerActive := true }

/-- `stop`: clear the activity flag, dispose all listeners, clear the
timer. The buffer is not touched. -/
def stop (s : LiveContextStream) : LiveContextStream :=
  { s with isActive := false, subscribed := false, timerActive := false }

/-- A document-change notification (`TextDocumentChangeEvent`). -/
structure TextDocumentChangeEvent where
  fileName : String
  scheme : String
  languageId : String
  contentChanges : List TextChange
  deriving DecidableEq

/-- The active editor, when there is one. -/
structure EditorView where
  fileName : String
  deriving DecidableEq

/-- A document-save notification. -/
structure SavedDocument where
  fileName : String
  scheme : String
  deriving DecidableEq

/-- A selection-change notification. -/
structure SelectionEvent where
  fileName : String
  selections : List (Nat × Nat)
  deriving DecidableEq

/-- `onDocumentChange`: ignored unless active and a `file:` document;
otherwise the change is appended to the buffer. (The fire-and-forget
`trackCodeChange` network call has no effect on local state.) -/
def onDocumentChange (s : LiveContextStream) (event : TextDocumentChangeEvent)
    (now : Nat) : LiveContextStream :=
  if !s.isActive || event.scheme != "file" then s
  else
    let change : DocumentChange :=
      { file := event.fileName, changes := event.contentChanges,
        timestamp := now, language := event.languageId }
    { s with buffer := addChange s.buffer change }

/-- `onEditorChange`: ignored unless active and an editor is focused;
otherwise the current-file pointer is updated. -/
def onEditorChange (s : LiveContextStream) (editor : Option EditorView) :
    LiveContextStream :=
  match editor with
  | none => s
  | some ed =>
      if !s.isActive then s
      else { s with buffer := setCurrentFile s.buffer ed.fileName }

/-- `onDocumentSave`: ignored unless active and a `file:` document;
otherwise a save event is recorded. -/
def onDocumentSave (s : LiveContextStream) (doc : SavedDocument)
    (now : Nat) : LiveContextStream :=
  if !s.isActive || doc.scheme != "file" then s
  else { s with buffer := addSaveEvent s.buffer doc.fileName now }

/-- `onSelectionChange`: ignored unless active; otherwise the first
selection of the event is recorded. -/
def onSelectionChange (s : LiveContextStream) (event : SelectionEvent)
    (now : Nat) : LiveContextStream :=
  if !s.isActive then s
  else
    let record : SelectionRecord :=
      { file := event.fileName, selection := event.selections.head?,
        timestamp := now }
    { s with buffer := addSelectionChange s.buffer record }

/-! ## AI enhancement layer (`ai-enhancement-layer.ts`) -/

/-- `EnhancedContext` returned by the knowledge service
(`knowledgehub-client.ts`). -/
structure EnhancedContext where
  projectSummary : String
  relevantDecisions : List String
  relevantPatterns : List String
  currentBranch : String
  recentChanges : List String
  suggestions : List String
  deriving DecidableEq

/-- `VSCodeContext` gathered from the host. -/
structure VSCodeContext where
  activeFile : String
  workspaceRoot : String
  gitBranch : String
  openFiles : List String
  recentChanges : List String
  cursorPosition : Option (Nat × Nat)
  selectedText : Option String
  deriving DecidableEq

/-- `AIRequest`. -/
structure AIRequest where
  prompt : String
  context : Option String
  provider : Option String
  model : Option String
  deriving DecidableEq

/-- The extra fields `enhanceAIRequest` adds on success. -/
structure Enhancement where
  enhancedPrompt : String
  knowledgeHubContext : EnhancedContext
  vscodeContext : VSCodeContext
  deriving DecidableEq

/-- The value returned by `enhanceAIRequest`: the original request's
fields, plus the enhancement fields when the enhancement succeeded
(`none` models the bare `originalRequest` returned on the inactive and
error paths). -/
structure EnhancedAIRequest where
  request : AIRequest
  enhancement : Option Enhancement
  deriving DecidableEq

/-- `createEnhancedPrompt`: the three prompt templates, selected by the
`knowledgehub.ai.enhancementLevel` configuration value; every value
other than `minimal` and `standard` takes the final (maximum) branch. -/
def createEnhancedPrompt (enhancementLevel : String)
    (originalPrompt : String) (k : EnhancedContext) (v : VSCodeContext) :
    String :=
  if enhancementLevel == "minimal" then
    originalPrompt ++ "\n\n[Project: " ++ v.workspaceRoot ++ "]"
  else if enhancementLevel == "standard" then
    "\n# Context from KnowledgeHub AI Intelligence\n\n## Current File: " ++
      v.activeFile ++
      "\n## Git Branch: " ++ v.gitBranch ++
      "\n\n## Recent Project Patterns:\n" ++
      joinSep "\n" (k.relevantPatterns.take 3) ++
      "\n\n## Original Request:\n" ++ originalPrompt ++ "\n"
  else
    "\n# Enhanced Context from KnowledgeHub AI Intelligence\n\n## Project Context:\n" ++
      k.projectSummary ++
      "\n\n## Relevant Past Decisions:\n" ++
      joinSep "\n" ((k.relevantDecisions.take 3).map
        (fun decision => "- " ++ decision)) ++
      "\n\n## Known Patterns for This Task:\n" ++
      joinSep "\n" ((k.relevantPatterns.take 5).map
        (fun pattern => "- " ++ pattern)) ++
      "\n\n## Current Development Context:\n- **File**: " ++ v.activeFile ++
      "\n- **Git Branch**: " ++ v.gitBranch ++
      "\n- **Workspace**: " ++ v.workspaceRoot ++
      "\n- **Selected Text**: " ++
      (match v.selectedText with
       | none => "None"
       | some sel => if sel = "" then "None" else "\"" ++ sel ++ "\"") ++
      "\n\n## AI Suggestions:\n" ++
      joinSep "\n" ((k.suggestions.take 3).map
        (fun suggestion => "- " ++ suggestion)) ++
      "\n\n## Original Request:\n" ++ originalPrompt ++
      "\n\n---\nPlease provide a response that considers the full project context, learned patterns, and past decisions. Focus on consistency with existing codebase patterns and architectural decisions.\n"

/-- `enhanceAIRequest`. The two fallible collaborators — gathering the
VS Code context and the knowledge service's context call — are passed as
`Except` values; the `catch` block maps either failure to the original
request. -/
def enhanceAIRequest (isActive : Bool)
    (gather : Except String VSCodeContext)
    (getEnhancedContext : VSCodeContext → Except String EnhancedContext)
    (enhancementLevel : String) (originalRequest : AIRequest) :
    EnhancedAIRequest :=
  if !isActive then { request := originalRequest, enhancement := none }
  else
    match gather with
    | Except.error _ => { request := originalRequest, enhancement := none }
    | Except.ok v =>
      match getEnhancedContext v with
      | Except.error _ => { request := originalRequest, enhancement := none }
      | Except.ok k =>
          { request := originalRequest,
            enhancement := some
              { enhancedPrompt :=
                  createEnhancedPrompt enhancementLevel
                    originalRequest.prompt k v,
                knowledgeHubContext := k, vscodeContext := v } }

/-! ## General lemmas about the string and list helpers -/

theorem char_eq_of_toNat_eq {c d : Char} (h : c.toNat = d.toNat) : c = d :=
  Char.eq_of_val_eq (UInt32.ext h)

theorem charListLe_total (x y : List Char) :
    charListLe x y = true ∨ charListLe y x = true := by
  induction x generalizing y with
  | nil => left; rfl
  | cons c s ih =>
    cases y with
    | nil => right; rfl
    | cons d t =>
      rcases Nat.lt_trichotomy c.toNat d.toNat with h | h | h
      · left; simp [charListLe, Nat.blt_eq, h]
      · have hcd : c = d := char_eq_of_toNat_eq h
        subst hcd
        rcases ih t with h1 | h1
        · left; simp [charListLe, h1]
        · right; simp [charListLe, h1]
      · right; simp [charListLe, Nat.blt_eq, h]

theorem charListLe_trans (x y z : List Char) (hxy : charListLe x y = true)
    (hyz : charListLe y z = true) : charListLe x z = true := by
  induction x generalizing y z with
  | nil => rfl
  | cons c s ih =>
    cases y with
    | nil => simp [charListLe] at hxy
    | cons d t =>
      cases z with
      | nil => simp [charListLe] at hyz
      | cons e u =>
        simp only [charListLe, Bool.or_eq_true, Bool.and_eq_true,
          Nat.blt_eq] at hxy hyz ⊢
        rcases hxy with h1 | ⟨hcd, hst⟩
        · rcases hyz with h2 | ⟨hde, _⟩
          · left; omega
          · have hde' : d = e := beq_iff_eq.mp hde
            subst hde'; left; exact h1
        · have hcd' : c = d := beq_iff_eq.mp hcd
          subst hcd'
          rcases hyz with h2 | ⟨hde, htu⟩
          · left; exact h2
          · right; exact ⟨hde, ih t u hst htu⟩

theorem contains_refl (s : String) : Contains s s :=
  ⟨[], [], by simp⟩

theorem contains_append_left (a : String) {b sub : String}
    (h : Contains b sub) : Contains (a ++ b) sub := by
  obtain ⟨pre, post, hp⟩ := h
  exact ⟨a.data ++ pre, post, by rw [String.data_append, hp]; simp⟩

theorem contains_append_right {a sub : String} (b : String)
    (h : Contains a sub) : Contains (a ++ b) sub := by
  obtain ⟨pre, post, hp⟩ := h
  exact ⟨pre, post ++ b.data, by rw [String.data_append, hp]; simp⟩

theorem contains_trans {s t u : String} (h1 : Contains s t)
    (h2 : Contains t u) : Contains s u := by
  obtain ⟨p1, q1, e1⟩ := h1
  obtain ⟨p2, q2, e2⟩ := h2
  exact ⟨p1 ++ p2, q2 ++ q1, by rw [e1, e2]; simp⟩

theorem contains_joinSep_head (sep x : String) (xs : List String) :
    Contains (joinSep sep (x :: xs)) x := by
  cases xs with
  | nil => exact contains_refl x
  | cons y ys =>
    show Contains (x ++ sep ++ joinSep sep (y :: ys)) x
    exact contains_append_right _ (contains_append_right _ (contains_refl x))

theorem filterMap_map_sublist {α β γ : Type} (l : List α) (f : α → Option β)
    (g : β → γ) (h : α → γ) (H : ∀ a b, f a = some b → g b = h a) :
    List.Sublist ((l.filterMap f).map g) (l.map h) := by
  induction l with
  | nil => simp
  | cons a t ih =>
    cases hfa : f a with
    | none =>
      rw [List.map_cons, List.filterMap_cons, hfa]
      exact ih.cons (h a)
    | some b =>
      rw [List.map_cons, List.filterMap_cons, hfa, List.map_cons, H a b hfa]
      exact ih.cons₂ (h a)

/-! ## Buffer lemmas -/

/-- The state invariant of the context buffer. -/
def BufferInv (b : ContextBuffer) : Prop :=
  b.maxBufferSize = 100 ∧ b.changes.length ≤ 100 ∧
    b.saves.length ≤ 50 ∧ b.selections.length ≤ 20

theorem inv_applyOp (b : ContextBuffer) (op : BufferOp) (h : BufferInv b) :
    BufferInv (applyOp b op) := by
  obtain ⟨hmax, hc, hs, hl⟩ := h
  cases op with
  | change c =>
    simp only [applyOp, addChange]
    split
    · refine ⟨hmax, ?_, hs, hl⟩
      simp only [List.length_drop, List.length_append, List.length_cons]
      omega
    · next hle =>
      refine ⟨hmax, ?_, hs, hl⟩
      simp only [List.length_append, List.length_singleton]
      simp only [not_lt, List.length_append, List.length_singleton, hmax] at hle
      omega
  | save f now =>
    simp only [applyOp, addSaveEvent]
    split
    · refine ⟨hmax, hc, ?_, hl⟩
      simp only [List.length_drop, List.length_append, List.length_cons]
      omega
    · next hle =>
      refine ⟨hmax, hc, ?_, hl⟩
      simp only [not_lt, List.length_append, List.length_singleton] at hle ⊢
      omega
  | selection r =>
    simp only [applyOp, addSelectionChange]
    split
    · refine ⟨hmax, hc, hs, ?_⟩
      simp only [List.length_drop, List.length_append, List.length_cons]
      omega
    · next hle =>
      refine ⟨hmax, hc, hs, ?_⟩
      simp only [not_lt, List.length_append, List.length_singleton] at hle ⊢
      omega
  | setFile f => exact ⟨hmax, hc, hs, hl⟩

theorem inv_foldl (ops : List BufferOp) (b : ContextBuffer)
    (h : BufferInv b) : BufferInv (ops.foldl applyOp b) := by
  induction ops generalizing b with
  | nil => exact h
  | cons op t ih => exact ih _ (inv_applyOp b op h)

theorem addChange_maxBufferSize (b : ContextBuffer) (c : DocumentChange) :
    (addChange b c).maxBufferSize = b.maxBufferSize := by
  simp only [addChange]
  split <;> rfl

theorem foldl_addChange_drop (l : List DocumentChange) (b : ContextBuffer)
    (hmax : b.maxBufferSize = 100) (hlen : b.changes.length ≤ 100) :
    (l.foldl addChange b).changes =
      (b.changes ++ l).drop (b.changes.length + l.length - 100) := by
  induction l generalizing b with
  | nil =>
    have h0 : b.changes.length - 100 = 0 := by omega
    simp [h0]
  | cons c t ih =>
    have hmax' : (addChange b c).maxBufferSize = 100 := by
      rw [addChange_maxBufferSize]; exact hmax
    rw [List.foldl_cons]
    by_cases hcase : b.changes.length + 1 ≤ 100
    · have hb' : (addChange b c).changes = b.changes ++ [c] := by
        simp only [addChange]
        rw [if_neg]
        simp only [List.length_append, List.length_singleton, hmax]
        omega
      have hlen' : (addChange b c).changes.length ≤ 100 := by
        rw [hb']; simp only [List.length_append, List.length_singleton]; omega
      rw [ih _ hmax' hlen', hb']
      have e1 : (b.changes ++ [c]) ++ t = b.changes ++ c :: t := by simp
      have e2 : (b.changes ++ [c]).length + t.length - 100 =
          b.changes.length + (c :: t).length - 100 := by simp; omega
      rw [e1, e2]
    · have hlen100 : b.changes.length = 100 := by omega
      have hcond : b.maxBufferSize < (b.changes ++ [c]).length := by
        simp only [List.length_append, List.length_singleton, hmax]; omega
      have hb' : (addChange b c).changes = (b.changes ++ [c]).drop 1 := by
        simp only [addChange]
        rw [if_pos hcond]
        simp only [List.length_append, List.length_singleton, hmax, hlen100]
      have hlen' : (addChange b c).changes.length ≤ 100 := by
        rw [hb']
        simp only [List.length_drop, List.length_append, List.length_singleton]
        omega
      have hdlen : ((b.changes ++ [c]).drop 1).length = 100 := by
        simp only [List.length_drop, List.length_append, List.length_singleton,
          hlen100]
      obtain ⟨x, xs, hX⟩ : ∃ x xs, b.changes ++ [c] = x :: xs := by
        cases hcs : b.changes ++ [c] with
        | nil =>
          have hL := congrArg List.length hcs
          simp at hL
        | cons x xs => exact ⟨x, xs, rfl⟩
      have hd : ((b.changes ++ [c]).drop 1) ++ t = (b.changes ++ c :: t).drop 1 := by
        have e : b.changes ++ c :: t = (x :: xs) ++ t := by
          rw [← hX]; simp
        rw [hX, e]
        simp
      have hidx : 100 + t.length - 100 = t.length := by omega
      rw [ih _ hmax' hlen', hb', hdlen, hidx, hd, List.drop_drop]
      congr 1
      simp only [List.length_cons, hlen100]
      omega

/-! ## Claim C4 -/

/-- Claim C4: after any sequence of ingest operations on a fresh buffer,
the changes list holds at most 100 entries, the saves list at most 50 and
the selections list at most 20; and folding any sequence of change events
into a fresh buffer retains exactly the most recent 100 of them, in
ingestion order (so 101 ingested changes leave exactly the last 100). -/
theorem bufferCapacityFIFO :
    (∀ ops : List BufferOp,
      (runOps ops).changes.length ≤ 100 ∧
      (runOps ops).saves.length ≤ 50 ∧
      (runOps ops).selections.length ≤ 20) ∧
    (∀ l : List DocumentChange,
      (l.foldl addChange initialContextBuffer).changes =
        l.drop (l.length - 100)) := by
  constructor
  · intro ops
    have h := inv_foldl ops initialContextBuffer
      ⟨rfl, by simp [initialContextBuffer], by simp [initialContextBuffer],
       by simp [initialContextBuffer]⟩
    exact ⟨h.2.1, h.2.2.1, h.2.2.2⟩
  · intro l
    have h := foldl_addChange_drop l initialContextBuffer rfl
      (by simp [initialContextBuffer])
    simpa [initialContextBuffer] using h

/-! ## Claim C5 -/

/-- Claim C5: `getRecentChanges` never mutates the buffer — the post-call
state equals the pre-call state (same changes list, in the same order) —
and calling it twice with no intervening ingestion returns equal
results. -/
theorem getRecentChangesPure (b : ContextBuffer) (now minutes : Nat) :
    (getRecentChanges b now minutes).2 = b ∧
    (getRecentChanges b now minutes).2.changes = b.changes ∧
    (getRecentChanges (getRecentChanges b now minutes).2 now minutes).1 =
      (getRecentChanges b now minutes).1 :=
  ⟨rfl, rfl, rfl⟩

/-! ## Claim C6 -/

/-- Claim C6: after `stop()`, every host event delivered to any of the
four handlers leaves the stream's state (in particular its buffer)
unchanged; the handlers' own `isActive` guard enforces this even when
the handler is invoked directly, independently of unsubscription. -/
theorem stoppedHandlersIgnoreEvents (s : LiveContextStream)
    (ev : TextDocumentChangeEvent) (ed : Option EditorView)
    (doc : SavedDocument) (sel : SelectionEvent) (n1 n2 n3 : Nat) :
    onDocumentChange (stop s) ev n1 = stop s ∧
    onEditorChange (stop s) ed = stop s ∧
    onDocumentSave (stop s) doc n2 = stop s ∧
    onSelectionChange (stop s) sel n3 = stop s := by
  refine ⟨?_, ?_, ?_, ?_⟩
  · simp [onDocumentChange, stop]
  · cases ed <;> simp [onEditorChange, stop]
  · simp [onDocumentSave, stop]
  · simp [onSelectionChange, stop]

/-! ## Claim C10 -/

/-- Claim C10: `stop()` does not clear buffered history — the changes,
saves and selections lists and the current-file pointer are unchanged,
so a snapshot query after stopping returns the same events as before. -/
theorem stopPreservesBufferedHistory (s : LiveContextStream)
    (now minutes : Nat) :
    (stop s).buffer = s.buffer ∧
    (stop s).buffer.changes = s.buffer.changes ∧
    (stop s).buffer.saves = s.buffer.saves ∧
    (stop s).buffer.selections = s.buffer.selections ∧
    (stop s).buffer.currentFile = s.buffer.currentFile ∧
    (getRecentChanges (stop s).buffer now minutes).1 =
      (getRecentChanges s.buffer now minutes).1 :=
  ⟨rfl, rfl, rfl, rfl, rfl, rfl⟩

/-! ## Claim C8 -/

/-- Claim C8: `waitForProviderActivation` always produces a boolean
(never an exception): it yields `true` exactly when the extension lookup
succeeds and either the extension is already active or the activation
promise settles (successfully) before the timeout; a rejection or a
timeout that settles first yields `false`. -/
theorem waitForActivationBooleanRace (ext : Option Extension)
    (outcome : ActivationOutcome) :
    waitForProviderActivation ext outcome = true ↔
      ∃ e, ext = some e ∧
        (e.isActive = true ∨ outcome = ActivationOutcome.activationResolves) := by
  cases ext with
  | none => simp [waitForProviderActivation]
  | some e =>
    cases he : e.isActive <;> cases outcome <;>
      simp [waitForProviderActivation, he]

/-! ## Claim C9 -/

/-- Claim C9: `enhanceAIRequest` is total at its public interface — the
returned value always carries the original request's fields unchanged —
and when the layer is inactive, the context gathering fails, or the
remote context call fails, the result is exactly the original request
with no enhancement attached. -/
theorem enhanceAIRequestTotalFallback (isActive : Bool)
    (gather : Except String VSCodeContext)
    (getCtx : VSCodeContext → Except String EnhancedContext)
    (level : String) (req : AIRequest)
    (h : isActive = false ∨ (∃ msg, gather = Except.error msg) ∨
      (∃ v msg, gather = Except.ok v ∧ getCtx v = Except.error msg)) :
    (∀ (a : Bool) (g : Except String VSCodeContext)
      (k : VSCodeContext → Except String EnhancedContext) (lvl : String),
      (enhanceAIRequest a g k lvl req).request = req) ∧
    enhanceAIRequest isActive gather getCtx level req =
      { request := req, enhancement := none } := by
  constructor
  · intro a g k lvl
    cases a with
    | false => rfl
    | true =>
      cases g with
      | error m => rfl
      | ok v =>
        cases hk : k v with
        | error m => simp [enhanceAIRequest, hk]
        | ok c => simp [enhanceAIRequest, hk]
  · rcases h with h | ⟨msg, hg⟩ | ⟨v, msg, hg, hk⟩
    · simp [enhanceAIRequest, h]
    · cases isActive <;> simp [enhanceAIRequest, hg]
    · cases isActive <;> simp [enhanceAIRequest, hg, hk]

/-- A concrete request used by witnesses. -/
def reqW : AIRequest :=
  { prompt := "hello", context := none, provider := none, model := none }

/-- Witness for C9: at a concrete inactive layer the hypothesis holds and
the fallback conclusion is obtained from the theorem. -/
theorem enhanceAIRequestTotalFallbackW :
    ((false : Bool) = false ∨
      (∃ msg, (Except.error "net" : Except String VSCodeContext) =
        Except.error msg) ∨
      (∃ v msg,
        (Except.error "net" : Except String VSCodeContext) = Except.ok v ∧
        (fun _ : VSCodeContext =>
          (Except.error "boom" : Except String EnhancedContext)) v =
          Except.error msg)) ∧
    ((∀ (a : Bool) (g : Except String VSCodeContext)
      (k : VSCodeContext → Except String EnhancedContext) (lvl : String),
      (enhanceAIRequest a g k lvl reqW).request = reqW) ∧
    enhanceAIRequest false (Except.error "net")
      (fun _ => Except.error "boom") "maximum" reqW =
      { request := reqW, enhancement := none }) :=
  ⟨Or.inl rfl,
   enhanceAIRequestTotalFallback false (Except.error "net")
     (fun _ => Except.error "boom") "maximum" reqW (Or.inl rfl)⟩

/-! ## Concrete extensions used by counterexamples and witnesses -/

/-- An extension whose description and display name both contain an AI
term, with no other AI-related metadata: exactly one of the spec's four
grouped indicators is true, but two of the code's six booleans are. -/
def extDoubleAI : Extension :=
  { id := "acme.tool", isActive := false,
    packageJSON :=
      { description := some "ai", displayName := some "ai",
        keywords := none, categories := none, contributes := none,
        version := none } }

/-- An extension with two of the spec's four grouped indicators true
(description keyword and an AI-adjacent category). -/
def extTwoSpec : Extension :=
  { id := "acme.helper", isActive := false,
    packageJSON :=
      { description := some "an ai helper", displayName := none,
        keywords := none, categories := some ["Machine Learning"],
        contributes := none, version := none } }

/-- An installed GitHub Copilot extension whose own declared metadata is
deliberately unrelated to the allow-list entry. -/
def copilotExt : Extension :=
  { id := "github.copilot", isActive := true,
    packageJSON :=
      { description := none, displayName := some "Totally Different",
        keywords := none, categories := none, contributes := none,
        version := some "1.2.3" } }

/-- The allow-list table entry for GitHub Copilot. -/
def copilotInfo : AIProviderInfo :=
  { name := "github.copilot", displayName := "GitHub Copilot",
    capabilities := ["code-completion", "inline-completion", "chat"],
    apiMethods := ["getCompletions", "getInlineCompletions"] }

/-! ## Claim C1 -/

/-- Claim C1 counterexample: `extDoubleAI` has exactly one of the spec's
four grouped indicators true, yet the code classifies it as an AI
provider (its AI term is counted twice, once for the description and
once for the display name), and a detection pass over it emits it. -/
theorem oneSpecIndicatorStillClassified :
    specIndicatorCount extDoubleAI = 1 ∧
    isLikelyAIProvider extDoubleAI = true ∧
    (detectProviders [extDoubleAI]).map (fun d => d.id) = [extDoubleAI.id] := by
  decide

/-- Boolean core of the amended threshold claim: whenever at least two
of the four grouped indicators hold, at least two of the six per-field
booleans hold. -/
theorem twoOfFourLeTwoOfSix :
    ∀ d1 d2 d3 c4 c5 cp icp lg : Bool,
      2 ≤ ([d1 || d2 || d3, c4, c5, cp || icp].filter (fun b => b)).length →
      2 ≤ ([d1, d2, d3, c4, c5, cp || icp || lg].filter (fun b => b)).length := by
  decide

/-- Claim C1 (amended): the detector classifies an extension as an AI
provider iff at least 2 of its six per-field booleans are true (the
three keyword checks counted separately, and a `languages` contribution
also counting as a completion indicator); consequently every extension
with at least 2 of the spec's four grouped indicators is classified,
but an extension with exactly 1 grouped indicator may be classified too. -/
theorem detectorThresholdIsTwoOfSix (e : Extension)
    (h : 2 ≤ specIndicatorCount e) :
    isLikelyAIProvider e = true ∧
    (isLikelyAIProvider e = true ↔ 2 ≤ codeIndicatorCount e) := by
  constructor
  · have h6 := twoOfFourLeTwoOfSix
      (containsAIKeywords (e.packageJSON.description.getD ""))
      (containsAIKeywords (e.packageJSON.displayName.getD ""))
      (containsAIKeywords (joinSep " " (e.packageJSON.keywords.getD [])))
      (hasAICategory (e.packageJSON.categories.getD []))
      (hasAICommands ((e.packageJSON.contributes.bind (fun c => c.commands)).getD []))
      ((e.packageJSON.contributes.getD emptyContributes).completionProviders)
      ((e.packageJSON.contributes.getD emptyContributes).inlineCompletionProviders)
      ((e.packageJSON.contributes.getD emptyContributes).languages)
      h
    show decide (2 ≤ ((codeIndicators e).filter (fun b => b)).length) = true
    rw [decide_eq_true_eq]
    exact h6
  · show decide (2 ≤ ((codeIndicators e).filter (fun b => b)).length) = true ↔ _
    rw [decide_eq_true_eq]
    exact Iff.rfl

/-- Witness for the amended C1 at a concrete extension with two grouped
indicators. -/
theorem detectorThresholdIsTwoOfSixW :
    2 ≤ specIndicatorCount extTwoSpec ∧
    (isLikelyAIProvider extTwoSpec = true ∧
      (isLikelyAIProvider extTwoSpec = true ↔
        2 ≤ codeIndicatorCount extTwoSpec)) :=
  ⟨by decide, detectorThresholdIsTwoOfSix extTwoSpec (by decide)⟩

/-! ## Claim C2 -/

/-- Claim C2 counterexample: feeding the same AI-looking record twice
into a detection pass yields two descriptors with the same id, so over
arbitrary metadata inputs the output can contain duplicate ids. -/
theorem duplicateInputYieldsDuplicateIds :
    ¬ ((detectProviders [extDoubleAI, extDoubleAI]).map
        (fun d => d.id)).Nodup := by
  decide

theorem detectKnown_ids_sublist (exts : List Extension) :
    List.Sublist ((detectKnownProviders exts).map (fun d => d.id))
      (knownProvidersList.map (fun p => p.1)) := by
  unfold detectKnownProviders
  apply filterMap_map_sublist
  intro p d hpd
  obtain ⟨e, _, rfl⟩ := Option.map_eq_some'.mp hpd
  rfl

theorem detectKnown_has (exts : List Extension) {x : String}
    (hx : x ∈ (detectKnownProviders exts).map (fun d => d.id)) :
    knownProvidersHas x = true := by
  obtain ⟨d, hdK, rfl⟩ := List.mem_map.mp hx
  unfold detectKnownProviders at hdK
  obtain ⟨p, hp, hpd⟩ := List.mem_filterMap.mp hdK
  obtain ⟨e, _, rfl⟩ := Option.map_eq_some'.mp hpd
  show knownProvidersHas p.1 = true
  unfold knownProvidersHas
  rw [List.any_eq_true]
  exact ⟨p, hp, by simp⟩

theorem detectUnknown_ids_sublist (exts : List Extension) :
    List.Sublist ((detectUnknownAIProviders exts).map (fun d => d.id))
      (exts.map (fun e => e.id)) := by
  unfold detectUnknownAIProviders
  apply filterMap_map_sublist
  intro e d hd
  by_cases h1 : knownProvidersHas e.id = true
  · simp [h1] at hd
  · by_cases h2 : isLikelyAIProvider e = true
    · simp only [Bool.not_eq_true] at h1
      simp [h1, h2] at hd
      rw [← hd]
      rfl
    · simp only [Bool.not_eq_true] at h1 h2
      simp [h1, h2] at hd

theorem detectUnknown_not_has (exts : List Extension) {x : String}
    (hx : x ∈ (detectUnknownAIProviders exts).map (fun d => d.id)) :
    knownProvidersHas x = false := by
  obtain ⟨d, hdU, rfl⟩ := List.mem_map.mp hx
  unfold detectUnknownAIProviders at hdU
  obtain ⟨e, _, hed⟩ := List.mem_filterMap.mp hdU
  by_cases h1 : knownProvidersHas e.id = true
  · simp [h1] at hed
  · by_cases h2 : isLikelyAIProvider e = true
    · simp only [Bool.not_eq_true] at h1
      simp [h1, h2] at hed
      rw [← hed]
      exact h1
    · simp only [Bool.not_eq_true] at h1 h2
      simp [h1, h2] at hed

/-- Claim C2 (amended): for every input whose records have pairwise
distinct ids, the detection pass returns no two descriptors with the
same id; and for every input the returned list is sorted by display name
in ascending case-insensitive lexicographic order. -/
theorem detectProvidersNodupSorted (exts : List Extension)
    (h : (exts.map (fun e => e.id)).Nodup) :
    ((detectProviders exts).map (fun d => d.id)).Nodup ∧
    List.Pairwise (fun a b => displayNameLe a b = true)
      (detectProviders exts) := by
  have hperm : List.Perm (detectProviders exts)
      (detectKnownProviders exts ++ detectUnknownAIProviders exts) :=
    List.perm_insertionSort _ _
  constructor
  · have hK : ((detectKnownProviders exts).map (fun d => d.id)).Nodup :=
      List.Nodup.sublist (detectKnown_ids_sublist exts) (by decide)
    have hU : ((detectUnknownAIProviders exts).map (fun d => d.id)).Nodup :=
      List.Nodup.sublist (detectUnknown_ids_sublist exts) h
    have hdisj :
        List.Disjoint ((detectKnownProviders exts).map (fun d => d.id))
          ((detectUnknownAIProviders exts).map (fun d => d.id)) := by
      rw [List.disjoint_left]
      intro a haK haU
      have h1 := detectKnown_has exts haK
      have h2 := detectUnknown_not_has exts haU
      rw [h1] at h2
      simp at h2
    have hcat : (((detectKnownProviders exts ++
        detectUnknownAIProviders exts)).map (fun d => d.id)).Nodup := by
      rw [List.map_append, List.nodup_append]
      exact ⟨hK, hU, hdisj⟩
    exact ((hperm.map (fun d => d.id)).nodup_iff).mpr hcat
  · haveI hto : IsTotal DetectedAIProvider
        (fun a b => displayNameLe a b = true) :=
      ⟨fun a b => charListLe_total _ _⟩
    haveI htr : IsTrans DetectedAIProvider
        (fun a b => displayNameLe a b = true) :=
      ⟨fun a b c hab hbc => charListLe_trans _ _ _ hab hbc⟩
    exact List.sorted_insertionSort _ _

/-- Witness for the amended C2 at a concrete one-record input. -/
theorem detectProvidersNodupSortedW :
    ([extDoubleAI].map (fun e => e.id)).Nodup ∧
    (((detectProviders [extDoubleAI]).map (fun d => d.id)).Nodup ∧
      List.Pairwise (fun a b => displayNameLe a b = true)
        (detectProviders [extDoubleAI])) :=
  ⟨by decide, detectProvidersNodupSorted [extDoubleAI] (by decide)⟩

/-! ## Claim C3 -/

/-- Claim C3: every installed extension whose id is in the allow-list
yields a descriptor whose capabilities (and display name and name) are
exactly the table entry for that id, regardless of the extension's own
declared metadata. -/
theorem allowListCapabilitiesVerbatim (exts : List Extension) (eid : String)
    (info : AIProviderInfo) (ext : Extension)
    (hmem : (eid, info) ∈ knownProvidersList) (hext : ext ∈ exts)
    (hid : ext.id = eid) :
    ∃ d ∈ detectProviders exts, d.id = eid ∧
      d.capabilities = info.capabilities ∧
      d.displayName = info.displayName ∧ d.name = info.name := by
  have hsome : (exts.find? (fun x => x.id == eid)).isSome = true := by
    rw [List.find?_isSome]
    exact ⟨ext, hext, by simp [hid]⟩
  obtain ⟨e', hfind⟩ := Option.isSome_iff_exists.mp hsome
  have hdK : mkKnownDescriptor eid info e' ∈ detectKnownProviders exts := by
    unfold detectKnownProviders
    rw [List.mem_filterMap]
    refine ⟨(eid, info), hmem, ?_⟩
    show (exts.find? (fun x => x.id == eid)).map
      (mkKnownDescriptor eid info) = _
    rw [hfind]
    rfl
  have hperm : List.Perm (detectProviders exts)
      (detectKnownProviders exts ++ detectUnknownAIProviders exts) :=
    List.perm_insertionSort _ _
  refine ⟨mkKnownDescriptor eid info e', ?_, rfl, rfl, rfl, rfl⟩
  exact hperm.mem_iff.mpr (List.mem_append_left _ hdK)

/-- Witness for C3: an installed Copilot extension with unrelated
metadata is emitted with the allow-list capabilities. -/
theorem allowListCapabilitiesVerbatimW :
    (("github.copilot", copilotInfo) ∈ knownProvidersList ∧
      copilotExt ∈ [copilotExt] ∧ copilotExt.id = "github.copilot") ∧
    (∃ d ∈ detectProviders [copilotExt], d.id = "github.copilot" ∧
      d.capabilities = copilotInfo.capabilities ∧
      d.displayName = copilotInfo.displayName ∧ d.name = copilotInfo.name) :=
  ⟨⟨by decide, by decide, rfl⟩,
   allowListCapabilitiesVerbatim [copilotExt] "github.copilot" copilotInfo
     copilotExt (by decide) (by decide) rfl⟩

/-! ## Claim C7 -/

/-- A concrete knowledge-service context used by C7's counterexample and
witness. -/
def ctxW : EnhancedContext :=
  { projectSummary := "A TypeScript web service",
    relevantDecisions := ["Use JWT for session handling"],
    relevantPatterns := ["JWT authentication", "Express middleware"],
    currentBranch := "main", recentChanges := [],
    suggestions := ["Add tests first"] }

/-- A concrete VS Code context used by C7's counterexample and witness. -/
def vctxW : VSCodeContext :=
  { activeFile := "auth.ts", workspaceRoot := "/w", gitBranch := "main",
    openFiles := [], recentChanges := [], cursorPosition := none,
    selectedText := none }

/-- Claim C7 counterexample: with the `minimal` level, the enhanced
prompt can contain a supplied pattern string — here because the original
prompt is itself the pattern text — so "minimal output contains no
pattern or decision text" fails as a universal statement. -/
theorem minimalPromptCanContainPatternText :
    "JWT authentication" ∈ ctxW.relevantPatterns ∧
    Contains (createEnhancedPrompt "minimal" "JWT authentication" ctxW vctxW)
      "JWT authentication" := by
  constructor
  · simp [ctxW]
  · unfold createEnhancedPrompt
    rw [if_pos (by decide)]
    exact contains_append_right _ (contains_append_right _
      (contains_append_right _ (contains_refl _)))

/-- Claim C7 (amended): the `minimal` template is exactly the original
prompt followed by the project-path marker (so it adds no pattern or
decision text beyond what already occurs in the prompt or the workspace
root); the `standard` template contains the original prompt and, when at
least one pattern is supplied, the first supplied pattern; the `maximum`
template contains the original prompt and, when the lists are nonempty,
the first supplied decision, pattern and suggestion; and every level
other than `minimal` and `standard` produces the `maximum` template. -/
theorem enhancementLevelTemplates (p : String) (k : EnhancedContext)
    (v : VSCodeContext) (level : String)
    (hpat : k.relevantPatterns ≠ []) (hdec : k.relevantDecisions ≠ [])
    (hsug : k.suggestions ≠ [])
    (hl1 : level ≠ "minimal") (hl2 : level ≠ "standard") :
    createEnhancedPrompt "minimal" p k v =
      p ++ "\n\n[Project: " ++ v.workspaceRoot ++ "]" ∧
    Contains (createEnhancedPrompt "minimal" p k v) p ∧
    Contains (createEnhancedPrompt "minimal" p k v) "[Project: " ∧
    Contains (createEnhancedPrompt "standard" p k v) p ∧
    Contains (createEnhancedPrompt "standard" p k v)
      (k.relevantPatterns.headD "") ∧
    Contains (createEnhancedPrompt "maximum" p k v) p ∧
    Contains (createEnhancedPrompt "maximum" p k v)
      (k.relevantDecisions.headD "") ∧
    Contains (createEnhancedPrompt "maximum" p k v)
      (k.relevantPatterns.headD "") ∧
    Contains (createEnhancedPrompt "maximum" p k v)
      (k.suggestions.headD "") ∧
    createEnhancedPrompt level p k v = createEnhancedPrompt "maximum" p k v := by
  obtain ⟨p0, ps, hps⟩ := List.exists_cons_of_ne_nil hpat
  obtain ⟨d0, ds, hds⟩ := List.exists_cons_of_ne_nil hdec
  obtain ⟨s0, ss, hss⟩ := List.exists_cons_of_ne_nil hsug
  refine ⟨?_, ?_, ?_, ?_, ?_, ?_, ?_, ?_, ?_, ?_⟩
  · unfold createEnhancedPrompt
    rw [if_pos (by decide)]
  · unfold createEnhancedPrompt
    rw [if_pos (by decide)]
    exact contains_append_right _ (contains_append_right _
      (contains_append_right _ (contains_refl _)))
  · unfold createEnhancedPrompt
    rw [if_pos (by decide)]
    have hsub : Contains "\n\n[Project: " "[Project: " :=
      ⟨"\n\n".data, [], by decide⟩
    exact contains_append_right _ (contains_append_right _
      (contains_append_left _ hsub))
  · unfold createEnhancedPrompt
    rw [if_neg (by decide), if_pos (by decide)]
    exact contains_append_right _ (contains_append_left _ (contains_refl _))
  · unfold createEnhancedPrompt
    rw [if_neg (by decide), if_pos (by decide), hps]
    have ht : (p0 :: ps).take 3 = p0 :: ps.take 2 := rfl
    rw [ht, List.headD_cons]
    iterate 3 apply contains_append_right
    apply contains_append_left
    exact contains_joinSep_head _ _ _
  · unfold createEnhancedPrompt
    rw [if_neg (by decide), if_neg (by decide)]
    apply contains_append_right
    exact contains_append_left _ (contains_refl _)
  · unfold createEnhancedPrompt
    rw [if_neg (by decide), if_neg (by decide), hds, List.headD_cons]
    have hjd : ((d0 :: ds).take 3).map (fun decision => "- " ++ decision) =
        ("- " ++ d0) :: (ds.take 2).map (fun decision => "- " ++ decision) :=
      rfl
    rw [hjd]
    have hJ : Contains (joinSep "\n" (("- " ++ d0) ::
        (ds.take 2).map (fun decision => "- " ++ decision))) d0 :=
      contains_trans (contains_joinSep_head _ _ _)
        (contains_append_left _ (contains_refl _))
    iterate 15 apply contains_append_right
    apply contains_append_left
    exact hJ
  · unfold createEnhancedPrompt
    rw [if_neg (by decide), if_neg (by decide), hps, List.headD_cons]
    have hjp : ((p0 :: ps).take 5).map (fun pattern => "- " ++ pattern) =
        ("- " ++ p0) :: (ps.take 4).map (fun pattern => "- " ++ pattern) :=
      rfl
    rw [hjp]
    have hJ : Contains (joinSep "\n" (("- " ++ p0) ::
        (ps.take 4).map (fun pattern => "- " ++ pattern))) p0 :=
      contains_trans (contains_joinSep_head _ _ _)
        (contains_append_left _ (contains_refl _))
    iterate 13 apply contains_append_right
    apply contains_append_left
    exact hJ
  · unfold createEnhancedPrompt
    rw [if_neg (by decide), if_neg (by decide), hss, List.headD_cons]
    have hjs : ((s0 :: ss).take 3).map (fun suggestion => "- " ++ suggestion) =
        ("- " ++ s0) :: (ss.take 2).map (fun suggestion => "- " ++ suggestion) :=
      rfl
    rw [hjs]
    have hJ : Contains (joinSep "\n" (("- " ++ s0) ::
        (ss.take 2).map (fun suggestion => "- " ++ suggestion))) s0 :=
      contains_trans (contains_joinSep_head _ _ _)
        (contains_append_left _ (contains_refl _))
    iterate 3 apply contains_append_right
    apply contains_append_left
    exact hJ
  · unfold createEnhancedPrompt
    rw [if_neg (fun hcon => hl1 (beq_iff_eq.mp hcon)),
      if_neg (fun hcon => hl2 (beq_iff_eq.mp hcon)),
      if_neg (by decide), if_neg (by decide)]

/-- Witness for the amended C7 at the spec's own example inputs and the
unrecognized level value `verbose`. -/
theorem enhancementLevelTemplatesW :
    (ctxW.relevantPatterns ≠ [] ∧ ctxW.relevantDecisions ≠ [] ∧
      ctxW.suggestions ≠ [] ∧ ("verbose" : String) ≠ "minimal" ∧
      ("verbose" : String) ≠ "standard") ∧
    (createEnhancedPrompt "minimal" "Create a user authentication function"
        ctxW vctxW =
      "Create a user authentication function" ++ "\n\n[Project: " ++
        vctxW.workspaceRoot ++ "]" ∧
    Contains (createEnhancedPrompt "minimal"
      "Create a user authentication function" ctxW vctxW)
      "Create a user authentication function" ∧
    Contains (createEnhancedPrompt "minimal"
      "Create a user authentication function" ctxW vctxW) "[Project: " ∧
    Contains (createEnhancedPrompt "standard"
      "Create a user authentication function" ctxW vctxW)
      "Create a user authentication function" ∧
    Contains (createEnhancedPrompt "standard"
      "Create a user authentication function" ctxW vctxW)
      (ctxW.relevantPatterns.headD "") ∧
    Contains (createEnhancedPrompt "maximum"
      "Create a user authentication function" ctxW vctxW)
      "Create a user authentication function" ∧
    Contains (createEnhancedPrompt "maximum"
      "Create a user authentication function" ctxW vctxW)
      (ctxW.relevantDecisions.headD "") ∧
    Contains (createEnhancedPrompt "maximum"
      "Create a user authentication function" ctxW vctxW)
      (ctxW.relevantPatterns.headD "") ∧
    Contains (createEnhancedPrompt "maximum"
      "Create a user authentication function" ctxW vctxW)
      (ctxW.suggestions.headD "") ∧
    createEnhancedPrompt "verbose" "Create a user authentication function"
        ctxW vctxW =
      createEnhancedPrompt "maximum" "Create a user authentication function"
        ctxW vctxW) :=
  ⟨⟨by decide, by decide, by decide, by decide, by decide⟩,
   enhancementLevelTemplates "Create a user authentication function" ctxW
     vctxW "verbose" (by decide) (by decide) (by decide) (by decide)
     (by decide)⟩

end KHub
